import Mathlib

/-!
Verification development for the onyx_mcp repository: a shallow embedding in
Lean 4 of the crawl/normalize/index/search pipeline (documentation crawler,
GitHub repository tree walker, and multi-source search engine), together with
theorems settling the specification claims about these components.

Conventions of the embedding:
* JavaScript strings are modelled by Lean `String`; the JS string operations
  used by the code (`toLowerCase`, `includes`, `startsWith`, `endsWith`,
  `indexOf`, `substring`, `split`, `trim`) are re-defined below on the
  character list underlying a `String`, matching the JS semantics on the
  ASCII inputs the code handles.
* Asynchronous I/O (file reads, HTTP fetches) is modelled by explicit
  parameters: a corpus file read is an `Option` value (`none` = the read or
  the JSON parse failed), a page fetch is an oracle `String → Option PageData`
  (`none` = the fetch threw).
* Stateful code is modelled by explicit state passing; the crawler's
  processing loop is a fuel-indexed iteration of its loop body.
-/

namespace OnyxMcp

/-! ## JS string primitives -/

/-- JS `String.prototype.toLowerCase` (ASCII range, as used by the code). -/
def jsToLower (s : String) : String :=
  ⟨s.data.map Char.toLower⟩

/-- First index at which `sub` occurs in `l`, scanning from index `i`:
the worker behind JS `String.prototype.indexOf`. -/
def idxFrom (sub : List Char) : List Char → Nat → Option Nat
  | [], i => if sub.isEmpty then some i else none
  | c :: t, i => if sub.isPrefixOf (c :: t) then some i else idxFrom sub t (i + 1)

/-- JS `String.prototype.indexOf` returning `none` for `-1`. -/
def jsIndexOf (s sub : String) : Option Nat :=
  idxFrom sub.data s.data 0

/-- JS `String.prototype.includes` (substring containment). -/
def jsIncludes (s sub : String) : Bool :=
  (jsIndexOf s sub).isSome

/-- JS `String.prototype.startsWith`. -/
def jsStartsWith (s pre : String) : Bool :=
  decide (pre.data <+: s.data)

/-- JS `String.prototype.endsWith`. -/
def jsEndsWith (s suf : String) : Bool :=
  decide (suf.data <:+ s.data)

/-- JS `String.prototype.substring start end` (clamped character window). -/
def jsSubstring (s : String) (start stop : Nat) : String :=
  ⟨(s.data.drop start).take (stop - start)⟩

/-- Drop the first `n` characters (JS `slice(n)` for our uses). -/
def jsDrop (s : String) (n : Nat) : String :=
  ⟨s.data.drop n⟩

/-- Take the first `n` characters. -/
def jsTake (s : String) (n : Nat) : String :=
  ⟨s.data.take n⟩

/-- Drop the last `n` characters (JS `slice(0, -n)` for our uses). -/
def jsDropRight (s : String) (n : Nat) : String :=
  ⟨s.data.take (s.data.length - n)⟩

/-- Character length (JS `String.prototype.length` on the BMP inputs used). -/
def jsLength (s : String) : Nat :=
  s.data.length

/-- ASCII whitespace test (the whitespace actually occurring in the inputs). -/
def isJsSpace (c : Char) : Bool :=
  c = ' ' || c = '\t' || c = '\n' || c = '\r'

/-- JS `String.prototype.trim` (ASCII whitespace). -/
def jsTrim (s : String) : String :=
  ⟨((s.data.dropWhile isJsSpace).reverse.dropWhile isJsSpace).reverse⟩

/-- JS `split('/')` on the underlying character list. -/
def splitSlash : List Char → List (List Char)
  | [] => [[]]
  | c :: t =>
    match splitSlash t with
    | [] => [[]]
    | h :: r => if c = '/' then [] :: h :: r else (c :: h) :: r

/-! ## Stable descending sort by a numeric key

`array.sort((a, b) => b.score - a.score)` on the small natural-number scores
produced by the search engine: a stable sort into non-increasing key order,
modelled by insertion sort (which is stable). -/

/-- Insert `x` in front of the first element whose key is `≤ key x`. -/
def insertDescBy (key : α → Nat) (x : α) : List α → List α
  | [] => [x]
  | y :: ys => if key y ≤ key x then x :: y :: ys else y :: insertDescBy key x ys

/-- Stable sort into non-increasing key order. -/
def sortByKeyDesc (key : α → Nat) : List α → List α
  | [] => []
  | x :: xs => insertDescBy key x (sortByKeyDesc key xs)

/-! ## Repository Tree Walker: `GitHubCrawler.determineFileType`
(embedded from the `class GitHubCrawler` source listing in README.md). -/

/-- `GitHubCrawler.determineFileType(filePath)`: the closed path-based file
classification, rule order exactly as in the source. -/
def determineFileType (filePath : String) : String :=
  let p := jsToLower filePath
  if jsEndsWith p ".onyx" then "source"
  else if jsEndsWith p ".kdl" then "project-config"
  else if p = "onyx.pkg" || jsEndsWith p ".onyx.pkg" then "package-config"
  else if p = "readme.md" || p = "readme.txt" || p = "readme" then "readme"
  else if jsIncludes p "license" then "license"
  else if jsIncludes p "changelog" then "changelog"
  else if jsIncludes p "doc" && (jsEndsWith p ".md" || jsEndsWith p ".html") then "documentation"
  else if jsIncludes p "example" then "example"
  else if jsEndsWith p ".html" then
    if jsIncludes p "doc" || jsIncludes p "manual" || jsIncludes p "guide" then "documentation"
    else if jsIncludes p "example" || jsIncludes p "demo" || jsIncludes p "tutorial" then "example"
    else if jsIncludes p "index" || p = "index.html" then "web-index"
    else "web-content"
  else if jsEndsWith p ".toml" || jsEndsWith p ".yaml" || jsEndsWith p ".yml" then "config"
  else if jsEndsWith p ".json" then "config"
  else if jsEndsWith p ".md" then "markdown"
  else if jsEndsWith p ".txt" then "text"
  else "other"

/-! ## Repository Tree Walker: `GitHubCrawler.parseGitHubUrls` -/

/-- `cleanUrl.replace(/^https?\/\//, '')`: the source's protocol-stripping
regex. Note the regex has no `:` — it matches the literal prefixes
`http//` and `https//`, not `http://` or `https://`. -/
def stripProtocol (s : String) : String :=
  if jsStartsWith s "https//" then jsDrop s 7
  else if jsStartsWith s "http//" then jsDrop s 6
  else s

/-- `cleanUrl.replace(/^github\.com\//, '')`. -/
def stripHost (s : String) : String :=
  if jsStartsWith s "github.com/" then jsDrop s 11 else s

/-- `cleanUrl.replace(/\.git$/, '')`. -/
def stripGitSuffix (s : String) : String :=
  if jsEndsWith s ".git" then jsDropRight s 4 else s

/-- `cleanUrl.replace(/marker.*$/, '')`: cut the string at the first
occurrence of `marker` (for newline-free URL inputs `.*$` reaches the end). -/
def cutAtFirst (s marker : String) : String :=
  match jsIndexOf s marker with
  | none => s
  | some i => jsTake s i

/-- One iteration of `GitHubCrawler.parseGitHubUrls`: cleans a single
repository reference and splits it into `(owner, name)`;
`none` models the `parts.length >= 2` failure branch. -/
def parseGitHubUrl (url : String) : Option (String × String) :=
  let c := jsTrim url
  let c := stripProtocol c
  let c := stripHost c
  let c := stripGitSuffix c
  let c := cutAtFirst c "/tree/"
  let c := cutAtFirst c "/blob/"
  let c := cutAtFirst c "/releases"
  let c := cutAtFirst c "/issues"
  let c := cutAtFirst c "/pull"
  match splitSlash c.data with
  | owner :: name :: _ => some (⟨owner⟩, ⟨name⟩)
  | _ => none

/-- `GitHubCrawler.parseGitHubUrls(urls)` restricted to the owner/name pair
each parsed repository record is built from. -/
def parseGitHubUrls (urls : List String) : List (String × String) :=
  urls.filterMap parseGitHubUrl

/-! ## Search Engine data model (src/src/lib/search-engine.js)

A persisted corpus is modelled by an `Option` of its parsed content:
`none` means the `fs.readFile`/`JSON.parse` of that corpus file failed.
The corpora handled here are JSON arrays, which are truthy in JS even when
empty, so `some` content always passes the `if (this.cache[type])` check. -/

structure Heading where
  level : Nat
  text : String
  id : Option String
deriving DecidableEq, Repr

structure CodeExample where
  code : String
  language : String
  context : String
deriving DecidableEq, Repr

/-- A crawled documentation page as persisted in `onyx-docs.json`
(`crawledAt`, a wall-clock timestamp, is abstracted away). -/
structure Document where
  url : String
  title : String
  content : String
  headings : List Heading
  codeExamples : List CodeExample
deriving DecidableEq, Repr

/-- Result of one `SearchEngine.loadData(type)` call: the value handed to the
caller, the cache slot it leaves behind, and whether a file read was
attempted on this call. -/
structure LoadOutcome (α : Type) where
  value : Option α
  cacheAfter : Option α
  readAttempted : Bool
deriving DecidableEq, Repr

/-- `SearchEngine.loadData(type)`: return the cache slot when it is truthy;
otherwise attempt the file read (`stored`), caching the parsed value on
success and returning `null` — with the cache slot left empty — on failure. -/
def loadData {α : Type} (stored : Option α) (cache : Option α) : LoadOutcome α :=
  match cache with
  | some c => ⟨some c, some c, false⟩
  | none =>
    match stored with
    | some d => ⟨some d, some d, true⟩
    | none => ⟨none, none, true⟩

/-- `SearchEngine.getSnippet(content, query, contextLength)`: a character
window of `contextLength` around the first (case-insensitive) occurrence of
the query, ellipsized at truncation boundaries. -/
def getSnippet (content query : String) (contextLength : Nat) : String :=
  match jsIndexOf (jsToLower content) (jsToLower query) with
  | none => jsTake content contextLength ++ "..."
  | some index =>
    let start := index - contextLength / 2
    let stop := min (jsLength content) (index + jsLength query + contextLength / 2)
    (if 0 < start then "..." else "") ++ jsSubstring content start stop ++
      (if stop < jsLength content then "..." else "")

/-- The score-and-filter loop shared by `searchDocs` and `searchGitHubFiles`:
score every item and keep exactly those with a strictly positive score. -/
def scoreFilter (score : α → Nat) (l : List α) : List (α × Nat) :=
  l.filterMap (fun a =>
    let s := score a
    if 0 < s then some (a, s) else none)

/-- The per-document score computed inside `SearchEngine.searchDocs`:
+10 for a title match, +1 for a content match, and +5 for each matching
heading (all case-insensitive substring tests against the lowered query). -/
def docScore (queryLower : String) (doc : Document) : Nat :=
  (if jsIncludes (jsToLower doc.title) queryLower then 10 else 0) +
  (if jsIncludes (jsToLower doc.content) queryLower then 1 else 0) +
  5 * (doc.headings.filter (fun h => jsIncludes (jsToLower h.text) queryLower)).length

/-- One entry of `searchDocs(...).results`. -/
structure DocResult where
  title : String
  url : String
  snippet : String
  headings : List String
  score : Nat
deriving DecidableEq, Repr

/-- The successful `searchDocs` response (its constant
`source: 'documentation'` field is attached during `searchAll`'s merge). -/
structure DocsResponse where
  query : String
  totalFound : Nat
  results : List DocResult
deriving DecidableEq, Repr

/-- `SearchEngine.searchDocs(query, limit)` on an already-loaded corpus:
score every document, keep the strictly-positive scores, sort descending,
truncate to `limit`, and project the result fields. -/
def searchDocs (docs : List Document) (query : String) (limit : Nat) : DocsResponse :=
  let queryLower := jsToLower query
  let scored := scoreFilter (docScore queryLower) docs
  let sorted := sortByKeyDesc Prod.snd scored
  { query := query
    totalFound := scored.length
    results := (sorted.take limit).map (fun r =>
      { title := r.1.title
        url := r.1.url
        snippet := getSnippet r.1.content queryLower 150
        headings := (r.1.headings.map Heading.text).take 3
        score := r.2 }) }

/-- The structured error `searchDocs` returns when the corpus is unavailable. -/
def noDocsError : String := "Documentation not available. Run crawler first."

/-- `searchDocs` including its load step on an already-settled load result. -/
def searchDocsLoaded (docs : Option (List Document)) (query : String) (limit : Nat) :
    Except String DocsResponse :=
  match docs with
  | none => Except.error noDocsError
  | some ds => Except.ok (searchDocs ds query limit)

/-- `searchDocs` with the lazy cache made explicit: performs the
`loadData('docs')` step against the persisted file (`stored`) and the current
cache slot, and returns the response together with the new cache slot. -/
def searchDocsCached (stored cache : Option (List Document)) (query : String) (limit : Nat) :
    Except String DocsResponse × Option (List Document) :=
  let r := loadData stored cache
  match r.value with
  | none => (Except.error noDocsError, r.cacheAfter)
  | some ds => (Except.ok (searchDocs ds query limit), r.cacheAfter)

/-- A repository file as persisted in `github/onyx-code.json`, restricted to
the fields `searchGitHubFiles` reads. -/
structure GithubFile where
  repository : String
  path : String
  code : String
  url : String
deriving DecidableEq, Repr

/-- One entry of `searchGitHubFiles(...).results`. -/
structure GithubFileResult where
  file : String
  repository : String
  url : String
  score : Nat
  codeSnippet : String
deriving DecidableEq, Repr

/-- The `searchGitHubFiles` response (constant `source: 'github'` field
attached during `searchAll`'s merge). -/
structure GithubResponse where
  totalFound : Nat
  results : List GithubFileResult
deriving DecidableEq, Repr

/-- The per-file score of `SearchEngine.searchGitHubFiles`: +5 path match,
+3 repository match, +1 code match. -/
def githubFileScore (queryLower : String) (f : GithubFile) : Nat :=
  (if jsIncludes (jsToLower f.path) queryLower then 5 else 0) +
  (if jsIncludes (jsToLower f.repository) queryLower then 3 else 0) +
  (if jsIncludes (jsToLower f.code) queryLower then 1 else 0)

/-- `SearchEngine.searchGitHubFiles(files, query, limit)`. -/
def searchGitHubFiles (files : List GithubFile) (query : String) (limit : Nat) :
    GithubResponse :=
  let queryLower := jsToLower query
  let scored := scoreFilter (githubFileScore queryLower) files
  let sorted := sortByKeyDesc Prod.snd scored
  { totalFound := scored.length
    results := (sorted.take limit).map (fun r =>
      { file := r.1.path
        repository := r.1.repository
        url := r.1.url
        score := r.2
        codeSnippet := getSnippet r.1.code queryLower 200 }) }

/-- An entry of `searchAll`'s combined result list: a per-source result item
tagged with the source it came from. -/
inductive CombItem where
  | doc : DocResult → CombItem
  | gh : GithubFileResult → CombItem
deriving DecidableEq, Repr

/-- The `score` field the merge sorts by (`b.score || 0`; always present). -/
def CombItem.score : CombItem → Nat
  | .doc r => r.score
  | .gh r => r.score

/-- The `source` tag attached to each merged item. -/
def CombItem.srcTag : CombItem → String
  | .doc _ => "documentation"
  | .gh _ => "github"

deriving instance DecidableEq for Except

/-- The `searchAll` response. `docsSlot`/`githubSlot` model
`results.resultsBySources`: `none` means the key is absent from that map. -/
structure SearchAllResult where
  query : String
  sources : List String
  totalResults : Nat
  docsSlot : Option (Except String DocsResponse)
  githubSlot : Option GithubResponse
  combinedResults : List CombItem
deriving DecidableEq, Repr

/-- `Math.ceil(limit / n)` for `0 < n` as computed on naturals. -/
def perSourceLimit (limit n : Nat) : Nat := (limit + n - 1) / n

/-- The item-collection loop of `searchAll`: per-source result items of every
slot that is present and not an error, docs slot first (JS object insertion
order), each tagged with its source. -/
def mergeSlots (docsSlot : Option (Except String DocsResponse))
    (githubSlot : Option GithubResponse) : List CombItem :=
  (match docsSlot with
    | some (Except.ok resp) => resp.results.map CombItem.doc
    | _ => []) ++
  (match githubSlot with
    | some resp => resp.results.map CombItem.gh
    | none => [])

/-- `SearchEngine.searchAll(query, sources, limit)` on already-settled corpus
loads. The per-source limit is `Math.ceil(limit / sources.length)`; for
`sources = []` the JS value is `Infinity` and — like the value computed
here — is never used, since no source matches the `includes` checks. The
`docs` slot is filled with the `searchDocs` outcome (a structured error when
that corpus is unavailable); the `github` slot is only assigned when
`loadData('githubFiles')` succeeds. Error and absent slots contribute no
items to the merged list, which is sorted by score descending and truncated
to `limit`. -/
def searchAll (docs : Option (List Document)) (githubFiles : Option (List GithubFile))
    (query : String) (sources : List String) (limit : Nat) : SearchAllResult :=
  let psl := perSourceLimit limit sources.length
  let docsSlot :=
    if "docs" ∈ sources then some (searchDocsLoaded docs query psl) else none
  let githubSlot :=
    if "github" ∈ sources then
      match githubFiles with
      | some fs => some (searchGitHubFiles fs query psl)
      | none => none
    else none
  let docsCount :=
    match docsSlot with
    | some (Except.ok resp) => resp.totalFound
    | _ => 0
  let githubCount :=
    match githubSlot with
    | some resp => resp.totalFound
    | none => 0
  { query := query
    sources := sources
    totalResults := docsCount + githubCount
    docsSlot := docsSlot
    githubSlot := githubSlot
    combinedResults := (sortByKeyDesc CombItem.score (mergeSlots docsSlot githubSlot)).take limit }

/-! ## URL Normalizer (`OnyxDocsCrawler.normalizeUrl`)

`new URL(url)` — WHATWG URL parsing — is an upstream collaborator; the
normalizer is embedded over the parsed URL object (`none` models the parse
failure the `catch` turns into `null`). Percent-encoding is abstracted: keys
and values are opaque text. -/

/-- The components of a parsed absolute URL that `normalizeUrl` reads or
writes: `protocol` keeps its trailing `:` (as in the WHATWG accessor),
`params` is the parsed query-pair list in document order. -/
structure UrlObj where
  protocol : String
  host : String
  pathname : String
  params : List (String × String)
  hash : String
deriving DecidableEq, Repr

/-- `params.get(key)`: the value of the first pair carrying `key`. -/
def jsGet (params : List (String × String)) (k : String) : Option String :=
  (params.find? (fun p => decide (p.1 = k))).map Prod.snd

/-- Delete every pair carrying `key`. -/
def removeKey : List (String × String) → String → List (String × String)
  | [], _ => []
  | p :: ps, k => if p.1 = k then removeKey ps k else p :: removeKey ps k

/-- `URLSearchParams.set(key, value)`: overwrite the first pair carrying
`key` and delete the rest; append when the key is absent. -/
def spSet : List (String × String) → String → String → List (String × String)
  | [], k, v => [(k, v)]
  | p :: ps, k, v => if p.1 = k then (k, v) :: removeKey ps k else p :: spSet ps k v

/-- The JS default `Array.sort` string comparison — lexicographic by code
unit — as a Boolean relation on the underlying character lists. -/
def charListLe : List Char → List Char → Bool
  | [], _ => true
  | _ :: _, [] => false
  | a :: as, b :: bs => if a = b then charListLe as bs else decide (a.toNat < b.toNat)

/-- `a <= b` in the JS default string sort order. -/
def jsStrLe (a b : String) : Bool := charListLe a.data b.data

/-- `[...params.keys()].sort()`: every pair's key, sorted by the JS default
lexicographic string comparison. -/
def sortedKeys (params : List (String × String)) : List String :=
  List.insertionSort (fun a b => jsStrLe a b = true) (params.map Prod.fst)

/-- Lines 48–53 of the crawler: rebuild the query by `set`ting each sorted
key to `params.get(key)` — the first value of that key — in sorted order
(`getD ""` only totalizes the impossible missing-key case). -/
def sortedRebuild (params : List (String × String)) : List (String × String) :=
  (sortedKeys params).foldl (fun acc k => spSet acc k ((jsGet params k).getD "")) []

/-- `searchParams.toString()` with percent-encoding abstracted. -/
def serializeParams (params : List (String × String)) : String :=
  String.intercalate "&" (params.map (fun p => p.1 ++ "=" ++ p.2))

/-- Lines 56–58: remove a trailing slash unless the path is the root. -/
def trimTrailingSlash (pathname : String) : String :=
  if pathname ≠ "/" ∧ jsEndsWith pathname "/" then jsDropRight pathname 1 else pathname

/-- `OnyxDocsCrawler.normalizeUrl(url)` over the parsed URL: clear the
fragment, rebuild the query from sorted keys, trim a non-root trailing
slash, and re-serialize `urlObj.href` (the cleared fragment contributes
nothing to the href). `none` models the parse-failure `null`. -/
def normalizeUrl (u : Option UrlObj) : Option String :=
  match u with
  | none => none
  | some urlObj =>
    let search := serializeParams (sortedRebuild urlObj.params)
    let pathname := trimTrailingSlash urlObj.pathname
    some (urlObj.protocol ++ "//" ++ urlObj.host ++ pathname ++
      (if search = "" then "" else "?" ++ search))

/-! ## Documentation Crawler (`OnyxDocsCrawler`)

Fetching (`axios.get`) and HTML extraction/link discovery (cheerio) are
upstream collaborators: they are modelled by an oracle
`String → Option PageData` giving, per URL, either the extracted page fields
and in-scope links or `none` for a fetch/extract throw. `normalizeUrl`
operates on raw URL strings through WHATWG parsing, so inside the crawl loop
it is likewise abstracted to a `String → Option String` parameter. Wall
clock timestamps are explicit `now` parameters (ms). -/

/-- `MAX_PAGES`: the page-count safety ceiling. -/
def MAX_PAGES : Nat := 500

/-- `maxConsecutiveErrors`: the circuit-breaker threshold. -/
def maxConsecutiveErrors : Nat := 5

/-- `RECRAWL_THRESHOLD_DAYS`: the freshness threshold in days. -/
def RECRAWL_THRESHOLD_DAYS : Nat := 7

/-- Milliseconds per day (`1000 * 60 * 60 * 24`). -/
def msPerDay : Nat := 86400000

/-- What one successful `crawlPage` fetch+extraction yields: the extracted
content fields and the in-scope links found by `findDocLinks`. -/
structure PageData where
  title : String
  content : String
  headings : List Heading
  codeExamples : List CodeExample
  links : List String
deriving DecidableEq, Repr

/-- The crawler's mutable state plus the `processQueue` loop counters.
`fetchLog` records each URL actually fetched, in order; `aborted` records
the circuit-breaker break. -/
structure CrawlState where
  linkQueue : List String
  visited : List String
  docs : List Document
  fetchLog : List String
  processedCount : Nat
  consecutiveErrors : Nat
  aborted : Bool
deriving DecidableEq, Repr

/-- The link-enqueueing loop at the end of `crawlPage`: normalize each
discovered link and append it unless invalid, already visited, or already
queued (the queue grows as the loop runs, deduplicating within one page). -/
def enqueueLinks (normalize : String → Option String) (visited : List String) :
    List String → List String → List String
  | q, [] => q
  | q, l :: ls =>
    match normalize l with
    | none => enqueueLinks normalize visited q ls
    | some nl =>
      if nl ∈ visited ∨ nl ∈ q then enqueueLinks normalize visited q ls
      else enqueueLinks normalize visited (q ++ [nl]) ls

/-- `crawlPage(url)` after a successful fetch: the URL was already marked
visited (before the fetch), a Document is pushed when the extracted content
is non-empty, and the new links are enqueued. -/
def crawlPageOk (normalize : String → Option String) (s : CrawlState) (rest : List String)
    (nu : String) (page : PageData) : CrawlState :=
  let visited := s.visited ++ [nu]
  let docs :=
    if jsTrim page.content ≠ "" then
      s.docs ++ [{ url := nu, title := page.title, content := page.content,
                   headings := page.headings, codeExamples := page.codeExamples }]
    else s.docs
  { s with
    linkQueue := enqueueLinks normalize visited rest page.links
    visited := visited
    docs := docs
    fetchLog := s.fetchLog ++ [nu] }

/-- The `processQueue` while-loop, fuel-indexed. The loop runs while the
queue is non-empty and fewer than `MAX_PAGES` pages were processed; invalid
and already-visited URLs are skipped without counting; a successful
`crawlPage` resets the consecutive-error counter and counts the page; a
fetch failure marks the URL visited (the mark precedes the fetch), counts
toward the consecutive-error counter and, at `maxConsecutiveErrors`, breaks
the loop — the ABORTED outcome. -/
def processQueue (oracle : String → Option PageData) (normalize : String → Option String) :
    Nat → CrawlState → CrawlState
  | 0, s => s
  | fuel + 1, s =>
    match s.linkQueue with
    | [] => s
    | url :: rest =>
      if MAX_PAGES ≤ s.processedCount then s
      else
        match normalize url with
        | none => processQueue oracle normalize fuel { s with linkQueue := rest }
        | some nu =>
          if nu ∈ s.visited then processQueue oracle normalize fuel { s with linkQueue := rest }
          else
            match oracle nu with
            | some page =>
              processQueue oracle normalize fuel
                { crawlPageOk normalize s rest nu page with
                  processedCount := s.processedCount + 1
                  consecutiveErrors := 0 }
            | none =>
              let s' := { s with
                linkQueue := rest
                visited := s.visited ++ [nu]
                fetchLog := s.fetchLog ++ [nu]
                consecutiveErrors := s.consecutiveErrors + 1 }
              if maxConsecutiveErrors ≤ s'.consecutiveErrors then { s' with aborted := true }
              else processQueue oracle normalize fuel s'

/-- The persisted `crawl-stats.json` record, restricted to the fields the
claims and `checkRecentCrawls` read (the per-domain breakdown and debug
fields, which need URL host parsing, are omitted). -/
structure CrawlStats where
  totalDocs : Nat
  totalCodeExamples : Nat
  urlsCrawled : Nat
  crawlDate : Option Nat
  baseUrls : List String
deriving DecidableEq, Repr

/-- One entry of the reduced `onyx-docs-index.json`. -/
structure IndexEntry where
  url : String
  title : String
  content : String
  headings : List String
  codeCount : Nat
deriving DecidableEq, Repr

/-- The files `saveDocs` writes. -/
structure PersistedData where
  docsJson : List Document
  indexJson : List IndexEntry
  statsJson : CrawlStats
deriving DecidableEq, Repr

/-- `saveDocs()`: write all accumulated documents, the reduced index, and a
wholesale-rewritten stats record. -/
def saveDocs (baseUrls : List String) (now : Nat) (s : CrawlState) : PersistedData :=
  { docsJson := s.docs
    indexJson := s.docs.map (fun doc =>
      { url := doc.url
        title := doc.title
        content := jsTake doc.content 500 ++ (if 500 < jsLength doc.content then "..." else "")
        headings := doc.headings.map Heading.text
        codeCount := doc.codeExamples.length })
    statsJson :=
      { totalDocs := s.docs.length
        totalCodeExamples := (s.docs.map (fun d => d.codeExamples.length)).sum
        urlsCrawled := s.visited.length
        crawlDate := some now
        baseUrls := baseUrls } }

/-- `checkRecentCrawls(urls)`: with a readable stats file carrying a crawl
date within the freshness threshold, return the requested URLs whose
normalization equals (JS `===`, under which two `null`s also agree) the
normalization of some base URL of the previous run; otherwise none. -/
def checkRecentCrawls (normalize : String → Option String) (prevStats : Option CrawlStats)
    (now : Nat) (urls : List String) : List String :=
  match prevStats with
  | none => []
  | some stats =>
    match stats.crawlDate with
    | none => []
    | some date =>
      if (now - date) / msPerDay < RECRAWL_THRESHOLD_DAYS then
        urls.filter (fun url =>
          stats.baseUrls.any (fun lastUrl => decide (normalize lastUrl = normalize url)))
      else []

/-- The observable outcome of one `crawl(startUrls)` run: what was seeded
onto the frontier, what was fetched, the final loop state, and the files
written — `none`/`[]` everywhere models the early `return`s, which enqueue,
fetch, and write nothing. -/
structure CrawlRun where
  seeded : List String
  fetched : List String
  finalState : Option CrawlState
  persisted : Option PersistedData
deriving DecidableEq, Repr

/-- `OnyxDocsCrawler.crawl(startUrls)`: drop recently-crawled seeds unless
forced, returning early when nothing remains (the source also returns early
when normalization leaves no valid URL); otherwise seed the frontier, run
`processQueue`, and unconditionally persist via `saveDocs`. -/
def crawl (oracle : String → Option PageData) (normalize : String → Option String)
    (fuel : Nat) (startUrls : List String) (force : Bool)
    (prevStats : Option CrawlStats) (now : Nat) : CrawlRun :=
  let sitesToSkip := checkRecentCrawls normalize prevStats now startUrls
  let filteredUrls :=
    if sitesToSkip ≠ [] ∧ force = false then
      startUrls.filter (fun url => decide (url ∉ sitesToSkip))
    else startUrls
  if filteredUrls = [] then
    { seeded := [], fetched := [], finalState := none, persisted := none }
  else
    let baseUrls := filteredUrls.filterMap normalize
    if baseUrls = [] then
      { seeded := [], fetched := [], finalState := none, persisted := none }
    else
      let s0 : CrawlState :=
        { linkQueue := baseUrls, visited := [], docs := [], fetchLog := [],
          processedCount := 0, consecutiveErrors := 0, aborted := false }
      let s1 := processQueue oracle normalize fuel s0
      { seeded := baseUrls, fetched := s1.fetchLog, finalState := some s1,
        persisted := some (saveDocs baseUrls now s1) }

/-! ## Concrete fixtures used by witnesses and counterexamples -/

/-- The specification's `Allocators` scenario document. -/
def allocatorsDoc : Document :=
  { url := "https://docs.onyxlang.io/book/allocators"
    title := "Allocators"
    content := "Use the heap allocator for dynamic memory"
    headings := [{ level := 1, text := "Allocators", id := none }]
    codeExamples := [] }

def arraysDoc : Document :=
  { url := "u1", title := "alpha arrays", content := "alpha", headings := [], codeExamples := [] }

def mapsDoc : Document :=
  { url := "u2", title := "alpha maps", content := "alpha", headings := [], codeExamples := [] }

def setsDoc : Document :=
  { url := "u3", title := "alpha sets", content := "alpha", headings := [], codeExamples := [] }

def fileA : GithubFile :=
  { repository := "o/r", path := "alpha/a.onyx", code := "alpha a", url := "ua" }

def fileB : GithubFile :=
  { repository := "o/r", path := "alpha/b.onyx", code := "alpha b", url := "ub" }

def fileC : GithubFile :=
  { repository := "o/r", path := "alpha/c.onyx", code := "alpha c", url := "uc" }

def emptyDocResult : DocResult :=
  { title := "", url := "", snippet := "", headings := [], score := 0 }

/-- Identity normalization (URLs already canonical), for concrete runs. -/
def normalizeId : String → Option String := fun u => some u

/-- An oracle under which every fetch fails. -/
def failingOracle : String → Option PageData := fun _ => none

/-- Five distinct doomed frontier URLs. -/
def fiveBad : List String := ["b1", "b2", "b3", "b4", "b5"]

/-- A mid-crawl loop state holding one already-collected document and the
five doomed frontier URLs. -/
def fiveBadState : CrawlState :=
  { linkQueue := fiveBad, visited := ["v0"], docs := [allocatorsDoc], fetchLog := ["v0"],
    processedCount := 1, consecutiveErrors := 0, aborted := false }

/-- A previous-run stats record: one base URL crawled at time 0. -/
def prevStatsFixture : CrawlStats :=
  { totalDocs := 1, totalCodeExamples := 0, urlsCrawled := 1,
    crawlDate := some 0, baseUrls := ["https://docs.onyxlang.io/book/Overview.html"] }

/-! ## Supporting lemmas -/

theorem mem_insertDescBy (key : α → Nat) (x : α) (l : List α) (z : α) :
    z ∈ insertDescBy key x l ↔ z = x ∨ z ∈ l := by
  induction l with
  | nil => simp [insertDescBy]
  | cons y ys ih =>
    by_cases h : key y ≤ key x
    · simp [insertDescBy, h]
    · simp only [insertDescBy, if_neg h, List.mem_cons, ih]
      tauto

theorem pairwise_insertDescBy (key : α → Nat) (x : α) (l : List α)
    (hl : l.Pairwise (fun a b => key b ≤ key a)) :
    (insertDescBy key x l).Pairwise (fun a b => key b ≤ key a) := by
  induction l with
  | nil => simp [insertDescBy]
  | cons y ys ih =>
    rcases List.pairwise_cons.mp hl with ⟨hy, hys⟩
    by_cases h : key y ≤ key x
    · rw [insertDescBy, if_pos h]
      refine List.pairwise_cons.mpr ⟨?_, hl⟩
      intro z hz
      rcases List.mem_cons.mp hz with rfl | hz
      · exact h
      · exact le_trans (hy z hz) h
    · rw [insertDescBy, if_neg h]
      refine List.pairwise_cons.mpr ⟨?_, ih hys⟩
      intro z hz
      rcases (mem_insertDescBy key x ys z).mp hz with rfl | hz
      · exact Nat.le_of_lt (Nat.lt_of_not_le h)
      · exact hy z hz

theorem mem_sortByKeyDesc (key : α → Nat) (l : List α) (z : α) :
    z ∈ sortByKeyDesc key l ↔ z ∈ l := by
  induction l with
  | nil => simp [sortByKeyDesc]
  | cons x xs ih => simp [sortByKeyDesc, mem_insertDescBy, ih]

theorem pairwise_sortByKeyDesc (key : α → Nat) (l : List α) :
    (sortByKeyDesc key l).Pairwise (fun a b => key b ≤ key a) := by
  induction l with
  | nil => simp [sortByKeyDesc]
  | cons x xs ih => exact pairwise_insertDescBy key x _ ih

theorem mem_scoreFilter (score : α → Nat) (l : List α) (p : α × Nat) :
    p ∈ scoreFilter score l ↔ p.1 ∈ l ∧ p.2 = score p.1 ∧ 0 < p.2 := by
  simp only [scoreFilter, List.mem_filterMap]
  constructor
  · rintro ⟨a, ha, hfa⟩
    by_cases h : 0 < score a
    · simp only [if_pos h, Option.some.injEq] at hfa
      cases hfa
      exact ⟨ha, rfl, h⟩
    · simp [h] at hfa
  · rintro ⟨h1, h2, h3⟩
    refine ⟨p.1, h1, ?_⟩
    have h3' : 0 < score p.1 := h2 ▸ h3
    simp only [if_pos h3']
    exact congrArg some (Prod.ext_iff.mpr ⟨rfl, h2.symm⟩)

theorem length_scoreFilter (score : α → Nat) (l : List α) :
    (scoreFilter score l).length = (l.filter (fun a => decide (0 < score a))).length := by
  induction l with
  | nil => rfl
  | cons a t ih =>
    by_cases h : 0 < score a
    · simp [scoreFilter, List.filterMap_cons, h, List.filter_cons] at ih ⊢
      exact ih
    · simp [scoreFilter, List.filterMap_cons, h, List.filter_cons] at ih ⊢
      exact ih

theorem removeKey_of_not_mem (l : List (String × String)) (k : String)
    (h : k ∉ l.map Prod.fst) : removeKey l k = l := by
  induction l with
  | nil => rfl
  | cons p ps ih =>
    simp only [List.map_cons, List.mem_cons, not_or] at h
    rw [removeKey, if_neg (fun he => h.1 he.symm), ih h.2]

theorem jsGet_cons (p : String × String) (ps : List (String × String)) (k' : String) :
    jsGet (p :: ps) k' = if p.1 = k' then some p.2 else jsGet ps k' := by
  by_cases h : p.1 = k'
  · simp [jsGet, List.find?_cons, h]
  · simp [jsGet, List.find?_cons, h]

theorem spSet_of_nodup (acc : List (String × String))
    (hnd : (acc.map Prod.fst).Nodup) (k w : String) :
    ((spSet acc k w).map Prod.fst).Nodup ∧
    (∀ k', jsGet (spSet acc k w) k' = if k' = k then some w else jsGet acc k') ∧
    (∀ k', k' ∈ (spSet acc k w).map Prod.fst ↔ k' ∈ acc.map Prod.fst ∨ k' = k) := by
  induction acc with
  | nil =>
    refine ⟨by simp [spSet], fun k' => ?_, fun k' => by simp [spSet]⟩
    rw [spSet, jsGet_cons]
    by_cases h : k' = k
    · simp [h]
    · rw [if_neg (fun he : k = k' => h he.symm), if_neg h]
  | cons p ps ih =>
    simp only [List.map_cons, List.nodup_cons] at hnd
    rcases hnd with ⟨hp, hps⟩
    rcases ih hps with ⟨ihnd, ihget, ihmem⟩
    by_cases hpk : p.1 = k
    · have hrk : removeKey ps k = ps := removeKey_of_not_mem ps k (hpk ▸ hp)
      refine ⟨?_, fun k' => ?_, fun k' => ?_⟩
      · rw [spSet, if_pos hpk, hrk]
        simp only [List.map_cons, List.nodup_cons]
        exact ⟨hpk ▸ hp, hps⟩
      · rw [spSet, if_pos hpk, hrk, jsGet_cons, jsGet_cons]
        by_cases h : k' = k
        · simp [h]
        · rw [if_neg (fun he : k = k' => h he.symm), if_neg h,
            if_neg (fun he : p.1 = k' => h (he.symm.trans hpk))]
      · rw [spSet, if_pos hpk, hrk]
        simp only [List.map_cons, List.mem_cons, hpk]
        tauto
    · refine ⟨?_, fun k' => ?_, fun k' => ?_⟩
      · rw [spSet, if_neg hpk]
        simp only [List.map_cons, List.nodup_cons]
        refine ⟨fun hmem => ?_, ihnd⟩
        rcases (ihmem p.1).mp hmem with h | h
        · exact hp h
        · exact hpk h
      · rw [spSet, if_neg hpk, jsGet_cons, jsGet_cons, ihget k']
        by_cases h : p.1 = k'
        · rw [if_pos h, if_neg (fun he : k' = k => hpk (h.trans he)), if_pos h]
        · rw [if_neg h, if_neg h]
      · rw [spSet, if_neg hpk]
        simp only [List.map_cons, List.mem_cons, ihmem k']
        tauto

theorem foldl_spSet_spec (v : String → String) (ks : List String)
    (acc : List (String × String)) (hnd : (acc.map Prod.fst).Nodup) :
    (((ks.foldl (fun a k => spSet a k (v k)) acc).map Prod.fst).Nodup) ∧
    (∀ k', jsGet (ks.foldl (fun a k => spSet a k (v k)) acc) k'
        = if k' ∈ ks then some (v k') else jsGet acc k') ∧
    (∀ k', k' ∈ (ks.foldl (fun a k => spSet a k (v k)) acc).map Prod.fst
        ↔ k' ∈ acc.map Prod.fst ∨ k' ∈ ks) := by
  induction ks generalizing acc with
  | nil => exact ⟨hnd, fun k' => by simp, fun k' => by simp⟩
  | cons k ks ih =>
    rcases spSet_of_nodup acc hnd k (v k) with ⟨snd, sget, smem⟩
    rcases ih (spSet acc k (v k)) snd with ⟨ind, iget, imem⟩
    refine ⟨ind, fun k' => ?_, fun k' => ?_⟩
    · simp only [List.foldl_cons]
      rw [iget k', sget k']
      by_cases hks : k' ∈ ks
      · simp [hks, List.mem_cons]
      · by_cases hk : k' = k
        · subst hk
          simp [hks]
        · simp [hks, hk, List.mem_cons]
    · simp only [List.foldl_cons]
      rw [imem k', smem k']
      simp only [List.mem_cons]
      tauto

theorem mem_sortedKeys (params : List (String × String)) (k : String) :
    k ∈ sortedKeys params ↔ k ∈ params.map Prod.fst :=
  (List.perm_insertionSort _ _).mem_iff

/-- Exactly-once/first-value behaviour of the query rebuild: the rebuilt
pair list has duplicate-free keys; a key occurring in the input is bound to
the value of its first input occurrence; an absent key stays absent. -/
theorem sortedRebuild_spec (params : List (String × String)) (k : String) :
    ((sortedRebuild params).map Prod.fst).Nodup ∧
    (k ∈ params.map Prod.fst →
        jsGet (sortedRebuild params) k = some ((jsGet params k).getD "")) ∧
    (k ∉ params.map Prod.fst → k ∉ (sortedRebuild params).map Prod.fst) := by
  rcases foldl_spSet_spec (fun k => (jsGet params k).getD "") (sortedKeys params) [] (by simp)
    with ⟨hnd, hget, hmem⟩
  refine ⟨hnd, fun hk => ?_, fun hk hmem' => ?_⟩
  · have := hget k
    rw [if_pos ((mem_sortedKeys params k).mpr hk)] at this
    exact this
  · rcases (hmem k).mp hmem' with h | h
    · simp at h
    · exact hk ((mem_sortedKeys params k).mp h)

theorem jsGet_eq_of_mem_nodup :
    ∀ (l : List (String × String)), (l.map Prod.fst).Nodup →
      ∀ q ∈ l, jsGet l q.1 = some q.2 := by
  intro l
  induction l with
  | nil => intro _ q hq; cases hq
  | cons p ps ih =>
    intro hnd q hq
    simp only [List.map_cons, List.nodup_cons] at hnd
    rcases hnd with ⟨hp, hps⟩
    rcases List.mem_cons.mp hq with rfl | hq'
    · rw [jsGet_cons, if_pos rfl]
    · have hne : ¬p.1 = q.1 := fun he => hp (he ▸ List.mem_map_of_mem Prod.fst hq')
      rw [jsGet_cons, if_neg hne]
      exact ih hps q hq'

theorem jsGet_eq_none_of_not_mem (l : List (String × String)) (k : String)
    (h : k ∉ l.map Prod.fst) : jsGet l k = none := by
  induction l with
  | nil => rfl
  | cons p ps ih =>
    simp only [List.map_cons, List.mem_cons, not_or] at h
    rw [jsGet_cons, if_neg (fun he : p.1 = k => h.1 he.symm), ih h.2]

theorem jsGet_perm_eq (p₁ p₂ : List (String × String)) (h : p₁.Perm p₂)
    (hnd : (p₁.map Prod.fst).Nodup) (k : String) : jsGet p₁ k = jsGet p₂ k := by
  have hnd₂ : (p₂.map Prod.fst).Nodup := ((h.map Prod.fst).nodup_iff).mp hnd
  by_cases hk : k ∈ p₁.map Prod.fst
  · rcases List.mem_map.mp hk with ⟨q, hq, rfl⟩
    rw [jsGet_eq_of_mem_nodup p₁ hnd q hq,
      jsGet_eq_of_mem_nodup p₂ hnd₂ q (h.mem_iff.mp hq)]
  · rw [jsGet_eq_none_of_not_mem p₁ k hk,
      jsGet_eq_none_of_not_mem p₂ k (fun hm => hk (((h.map Prod.fst).mem_iff).mpr hm))]

theorem char_toNat_inj {a b : Char} (h : a.toNat = b.toNat) : a = b :=
  Char.ext (UInt32.toNat.inj h)

theorem charListLe_total : ∀ a b : List Char, charListLe a b = true ∨ charListLe b a = true
  | [], _ => Or.inl rfl
  | _ :: _, [] => Or.inr rfl
  | a :: as, b :: bs => by
    by_cases hab : a = b
    · subst hab
      rcases charListLe_total as bs with h | h
      · left
        simpa [charListLe] using h
      · right
        simpa [charListLe] using h
    · have hnat : a.toNat ≠ b.toNat := fun h => hab (char_toNat_inj h)
      rcases Nat.lt_or_ge a.toNat b.toNat with hlt | hge
      · left
        simp [charListLe, hab, hlt]
      · have hgt : b.toNat < a.toNat := Nat.lt_of_le_of_ne hge (Ne.symm hnat)
        have hba : ¬b = a := fun h => hab h.symm
        right
        simp [charListLe, hba, hgt]

theorem charListLe_trans : ∀ a b c : List Char,
    charListLe a b = true → charListLe b c = true → charListLe a c = true
  | [], _, _, _, _ => rfl
  | _ :: _, [], _, h1, _ => absurd h1 (by simp [charListLe])
  | _ :: _, _ :: _, [], _, h2 => absurd h2 (by simp [charListLe])
  | a :: as, b :: bs, c :: cs, h1, h2 => by
    by_cases hab : a = b
    · subst hab
      by_cases hbc : a = c
      · subst hbc
        simp only [charListLe, if_pos rfl] at h1 h2 ⊢
        exact charListLe_trans as bs cs h1 h2
      · simp only [charListLe, if_neg hbc, decide_eq_true_eq] at h2 ⊢
        exact h2
    · by_cases hbc : b = c
      · subst hbc
        simp only [charListLe, if_neg hab, decide_eq_true_eq] at h1 ⊢
        exact h1
      · simp only [charListLe, if_neg hab, decide_eq_true_eq] at h1
        simp only [charListLe, if_neg hbc, decide_eq_true_eq] at h2
        have hac : a.toNat < c.toNat := Nat.lt_trans h1 h2
        have hane : ¬a = c := fun he => Nat.lt_irrefl _ (he ▸ hac)
        simp only [charListLe, if_neg hane, decide_eq_true_eq]
        exact hac

theorem charListLe_antisymm : ∀ a b : List Char,
    charListLe a b = true → charListLe b a = true → a = b
  | [], [], _, _ => rfl
  | [], _ :: _, _, h2 => absurd h2 (by simp [charListLe])
  | _ :: _, [], h1, _ => absurd h1 (by simp [charListLe])
  | a :: as, b :: bs, h1, h2 => by
    by_cases hab : a = b
    · subst hab
      simp only [charListLe, if_pos rfl] at h1 h2
      rw [charListLe_antisymm as bs h1 h2]
    · simp only [charListLe, if_neg hab, decide_eq_true_eq] at h1
      simp only [charListLe, if_neg (fun h : b = a => hab h.symm), decide_eq_true_eq] at h2
      exact absurd (Nat.lt_trans h1 h2) (Nat.lt_irrefl _)

theorem sortedKeys_perm_eq (p₁ p₂ : List (String × String)) (h : p₁.Perm p₂) :
    sortedKeys p₁ = sortedKeys p₂ := by
  haveI : IsAntisymm String (fun a b : String => jsStrLe a b = true) :=
    ⟨fun a b h1 h2 => String.ext (charListLe_antisymm a.data b.data h1 h2)⟩
  haveI : IsTotal String (fun a b : String => jsStrLe a b = true) :=
    ⟨fun a b => charListLe_total a.data b.data⟩
  haveI : IsTrans String (fun a b : String => jsStrLe a b = true) :=
    ⟨fun a b c => charListLe_trans a.data b.data c.data⟩
  exact List.eq_of_perm_of_sorted
    ((List.perm_insertionSort _ _).trans
      ((h.map Prod.fst).trans (List.perm_insertionSort _ _).symm))
    (List.sorted_insertionSort _ _) (List.sorted_insertionSort _ _)

theorem sortedRebuild_perm_eq (p₁ p₂ : List (String × String)) (h : p₁.Perm p₂)
    (hnd : (p₁.map Prod.fst).Nodup) : sortedRebuild p₁ = sortedRebuild p₂ := by
  unfold sortedRebuild
  rw [sortedKeys_perm_eq p₁ p₂ h]
  have hv : (fun (acc : List (String × String)) k => spSet acc k ((jsGet p₁ k).getD ""))
      = (fun acc k => spSet acc k ((jsGet p₂ k).getD "")) := by
    funext acc k
    rw [jsGet_perm_eq p₁ p₂ h hnd k]
  rw [hv]

/-! ## Claim theorems, counterexamples, and witnesses -/

/-- C8: `fileType` assignment is a pure, deterministic function of the file
path alone — witnessed by `determineFileType` being a plain function of its
path argument, content never inspected — and the rules are applied in a fixed
precedence order in which the `.onyx` source-extension rule precedes the
example-path rule: every path with the `.onyx` extension is classified
`source` (even an `examples/`-directory path), `README.md` is classified
`readme`, and `examples/http_demo.onyx` is classified `source`. -/
theorem determineFileType_path_precedence :
    (∀ p : String, jsEndsWith (jsToLower p) ".onyx" = true → determineFileType p = "source") ∧
    determineFileType "README.md" = "readme" ∧
    determineFileType "examples/http_demo.onyx" = "source" := by
  refine ⟨fun p h => ?_, rfl, rfl⟩
  unfold determineFileType
  simp only [h, if_true]

/-- Witness for C8: the `.onyx`-precedence clause applied at the concrete
example-directory path. -/
theorem determineFileType_path_precedence_witness :
    determineFileType "examples/socket_demo.onyx" = "source" :=
  determineFileType_path_precedence.1 "examples/socket_demo.onyx" rfl

/-- C2 (failing-input evaluation): the protocol-stripping regex
`/^https?\/\//` lacks the `:`, so a full `https://` URL is not stripped and
the split yields owner `"https:"` and name `""` instead of the claimed
`(owner, name)`; the bare and host-qualified formats do work as claimed. -/
theorem parseGitHubUrl_full_url_bug :
    parseGitHubUrl "https://github.com/owner/repo" = some ("https:", "") ∧
    parseGitHubUrl "https://github.com/owner/repo.git" = some ("https:", "") ∧
    parseGitHubUrl "https://github.com/owner/repo/tree/branch" = some ("https:", "") ∧
    parseGitHubUrl "github.com/owner/repo" = some ("owner", "repo") ∧
    parseGitHubUrl "owner/repo" = some ("owner", "repo") :=
  ⟨rfl, rfl, rfl, rfl, rfl⟩

/-- C1 counterexample: a failed load is not cached. After a first
`loadData('docs')` whose file read fails, the cache slot is still empty, and
a second query's `loadData` attempts the file read again — the claim says the
second call would return the error without re-attempting the load. -/
theorem loadData_failure_not_cached_counterexample :
    (@loadData (List Document) none none).cacheAfter = none ∧
    (@loadData (List Document) none
        (@loadData (List Document) none none).cacheAfter).readAttempted = true :=
  ⟨rfl, rfl⟩

/-- C1 (amended): a successful load is cached and a cached corpus is returned
without re-reading the file; a failed load is *not* cached — the cache slot
stays empty, so every later query re-attempts the read, and while the file
stays unreadable each query returns the structured `noDocsError` result. -/
theorem loadData_success_cached_failure_retried (stored cache : Option (List Document))
    (query : String) (limit : Nat) :
    (∀ c, cache = some c → loadData stored cache = ⟨some c, some c, false⟩) ∧
    (cache = none → (loadData stored cache).readAttempted = true) ∧
    (cache = none → stored = none →
        searchDocsCached stored cache query limit = (Except.error noDocsError, none)) ∧
    (∀ ds, cache = none → stored = some ds →
        searchDocsCached stored cache query limit
          = (Except.ok (searchDocs ds query limit), some ds)) := by
  refine ⟨fun c hc => ?_, fun hc => ?_, fun hc hs => ?_, fun ds hc hs => ?_⟩
  · subst hc; rfl
  · subst hc; cases stored <;> rfl
  · subst hc; subst hs; rfl
  · subst hc; subst hs; rfl

/-- Witness for the amended C1: on an absent corpus file with a cold cache,
the query returns the structured error and leaves the cache slot empty. -/
theorem loadData_success_cached_failure_retried_witness :
    searchDocsCached none none "q" 3 = (Except.error noDocsError, none) :=
  (loadData_success_cached_failure_retried none none "q" 3).2.2.1 rfl rfl

/-- C3: `searchDocs` on a loaded corpus returns only results with strictly
positive score, sorted non-increasing by score, at most `limit` of them; each
result is the projection of a scored corpus document — its score being the
title/headings/body weighted substring score and its snippet the window
around the first query occurrence — and `totalFound` counts exactly the
documents with positive score. -/
theorem searchDocs_scoring_spec (docs : List Document) (query : String) (limit : Nat) :
    (∀ x ∈ (searchDocs docs query limit).results, 0 < x.score) ∧
    ((searchDocs docs query limit).results).Pairwise (fun a b => b.score ≤ a.score) ∧
    (searchDocs docs query limit).results.length ≤ limit ∧
    (∀ x ∈ (searchDocs docs query limit).results, ∃ d ∈ docs,
        0 < docScore (jsToLower query) d ∧
        x = { title := d.title, url := d.url,
              snippet := getSnippet d.content (jsToLower query) 150,
              headings := (d.headings.map Heading.text).take 3,
              score := docScore (jsToLower query) d }) ∧
    (searchDocs docs query limit).totalFound
      = (docs.filter (fun d => decide (0 < docScore (jsToLower query) d))).length := by
  have hmem : ∀ x ∈ (searchDocs docs query limit).results, ∃ d ∈ docs,
      0 < docScore (jsToLower query) d ∧
      x = { title := d.title, url := d.url,
            snippet := getSnippet d.content (jsToLower query) 150,
            headings := (d.headings.map Heading.text).take 3,
            score := docScore (jsToLower query) d } := by
    intro x hx
    simp only [searchDocs] at hx
    rcases List.mem_map.mp hx with ⟨r, hr, rfl⟩
    have hr' := List.mem_of_mem_take hr
    rw [mem_sortByKeyDesc, mem_scoreFilter] at hr'
    rcases hr' with ⟨hd, hs, hpos⟩
    exact ⟨r.1, hd, hs ▸ hpos, by rw [hs]⟩
  refine ⟨?_, ?_, ?_, hmem, ?_⟩
  · intro x hx
    rcases hmem x hx with ⟨d, _, hpos, rfl⟩
    exact hpos
  · simp only [searchDocs]
    rw [List.pairwise_map]
    exact List.Pairwise.sublist (List.take_sublist _ _) (pairwise_sortByKeyDesc Prod.snd _)
  · simp only [searchDocs, List.length_map]
    exact List.length_take_le _ _
  · simp only [searchDocs]
    exact length_scoreFilter _ _

/-- Witness for C3: the spec's `Allocators` scenario — the returned result
has positive score. -/
theorem searchDocs_scoring_spec_witness :
    0 < ((searchDocs [allocatorsDoc] "allocator" 5).results.headD emptyDocResult).score :=
  (searchDocs_scoring_spec [allocatorsDoc] "allocator" 5).1 _ (by decide)

/-- C4: `searchAll` computes a per-source limit that is the ceiling of
`limit / sources.length` (the first two conjuncts characterize the ceiling),
runs each requested per-source search with that limit, merges all per-source
result items into one list sorted non-increasing by score, and returns at
most `limit` combined results. -/
theorem searchAll_merge_spec (docs : Option (List Document))
    (githubFiles : Option (List GithubFile)) (query : String)
    (sources : List String) (limit : Nat) (hne : sources ≠ []) :
    limit ≤ sources.length * perSourceLimit limit sources.length ∧
    sources.length * perSourceLimit limit sources.length < limit + sources.length ∧
    (searchAll docs githubFiles query sources limit).docsSlot
      = (if "docs" ∈ sources
          then some (searchDocsLoaded docs query (perSourceLimit limit sources.length))
          else none) ∧
    (∀ fs, githubFiles = some fs → "github" ∈ sources →
        (searchAll docs githubFiles query sources limit).githubSlot
          = some (searchGitHubFiles fs query (perSourceLimit limit sources.length))) ∧
    (searchAll docs githubFiles query sources limit).combinedResults
      = (sortByKeyDesc CombItem.score
          (mergeSlots (searchAll docs githubFiles query sources limit).docsSlot
            (searchAll docs githubFiles query sources limit).githubSlot)).take limit ∧
    ((searchAll docs githubFiles query sources limit).combinedResults).Pairwise
      (fun a b => CombItem.score b ≤ CombItem.score a) ∧
    (searchAll docs githubFiles query sources limit).combinedResults.length ≤ limit := by
  have hn : 0 < sources.length := List.length_pos.mpr hne
  have hdm := Nat.div_add_mod (limit + sources.length - 1) sources.length
  have hml := Nat.mod_lt (limit + sources.length - 1) hn
  refine ⟨?_, ?_, rfl, fun fs hfs hmem => ?_, rfl, ?_, ?_⟩
  · unfold perSourceLimit
    omega
  · unfold perSourceLimit
    omega
  · subst hfs
    simp [searchAll, hmem]
  · simp only [searchAll]
    exact List.Pairwise.sublist (List.take_sublist _ _)
      (pairwise_sortByKeyDesc CombItem.score _)
  · simp only [searchAll]
    exact List.length_take_le _ _

/-- Witness for C4: both sources hold 3 matches each, `limit = 2`, and the
combined result list still has at most 2 entries. -/
theorem searchAll_merge_spec_witness :
    (searchAll (some [arraysDoc, mapsDoc, setsDoc]) (some [fileA, fileB, fileC])
      "alpha" ["docs", "github"] 2).combinedResults.length ≤ 2 :=
  (searchAll_merge_spec (some [arraysDoc, mapsDoc, setsDoc]) (some [fileA, fileB, fileC])
    "alpha" ["docs", "github"] 2 (by decide)).2.2.2.2.2.2

/-- C5 counterexample: when the github corpus load fails, `searchAll` leaves
the `github` key absent from `resultsBySources` (modelled as `none`) instead
of storing an explicit error marker there, even though `'github'` was
requested; the call itself still returns a normal result (here with the docs
hit present in the merged list). -/
theorem searchAll_github_slot_absent_counterexample :
    (searchAll (some [allocatorsDoc]) none "allocator" ["docs", "github"] 10).githubSlot
      = none ∧
    (searchAll (some [allocatorsDoc]) none "allocator" ["docs", "github"] 10).totalResults
      = 1 :=
  ⟨rfl, rfl⟩

/-- C5 (amended): a per-source corpus-load failure never fails the overall
`searchAll` call; a failed docs load puts an explicit structured error marker
in the docs slot, but a failed github load leaves the github slot absent from
the per-source result map (no error marker), and the merged result list is
still produced (at most `limit` entries). -/
theorem searchAll_degraded_slots (docs : Option (List Document)) (query : String)
    (sources : List String) (limit : Nat) :
    ("docs" ∈ sources → docs = none →
        (searchAll docs none query sources limit).docsSlot
          = some (Except.error noDocsError)) ∧
    (searchAll docs none query sources limit).githubSlot = none ∧
    (searchAll docs none query sources limit).combinedResults.length ≤ limit := by
  refine ⟨fun hmem hdocs => ?_, ?_, ?_⟩
  · subst hdocs
    simp [searchAll, hmem, searchDocsLoaded]
  · by_cases hg : "github" ∈ sources <;> simp [searchAll, hg]
  · simp only [searchAll]
    exact List.length_take_le _ _

/-- Witness for the amended C5: both corpora unavailable, both sources
requested — docs slot carries the structured error. -/
theorem searchAll_degraded_slots_witness :
    (searchAll none none "q" ["docs", "github"] 5).docsSlot
      = some (Except.error noDocsError) :=
  (searchAll_degraded_slots none "q" ["docs", "github"] 5).1 (by decide) rfl

/-- C6 counterexample: two URLs that differ only by the order of their query
parameters (the pair lists are permutations of one another, everything else
equal) but normalize differently, because the rebuild binds each key to
`params.get(key)` — the first value — and with the duplicate key `a` the
first value depends on the order. -/
theorem normalizeUrl_param_order_counterexample :
    ([("a", "1"), ("a", "2")] : List (String × String)).Perm [("a", "2"), ("a", "1")] ∧
    normalizeUrl (some ⟨"http:", "x", "/p", [("a", "1"), ("a", "2")], ""⟩)
      ≠ normalizeUrl (some ⟨"http:", "x", "/p", [("a", "2"), ("a", "1")], ""⟩) := by
  constructor
  · decide
  · decide

/-- C6 (amended): the Normalizer's output is invariant under the fragment,
under reordering of query parameters *whose keys are pairwise distinct*
(with a duplicated key, the first occurrence's value wins, so reordering can
change the output — see the counterexample), and under a single trailing
slash on a non-root path; a string that fails to parse as an absolute URL
yields the distinguishable invalid result. -/
theorem normalizeUrl_equivalences :
    (∀ (pr hst path : String) (ps : List (String × String)) (h₁ h₂ : String),
        normalizeUrl (some ⟨pr, hst, path, ps, h₁⟩)
          = normalizeUrl (some ⟨pr, hst, path, ps, h₂⟩)) ∧
    (∀ (pr hst path h : String) (ps₁ ps₂ : List (String × String)),
        ps₁.Perm ps₂ → (ps₁.map Prod.fst).Nodup →
        normalizeUrl (some ⟨pr, hst, path, ps₁, h⟩)
          = normalizeUrl (some ⟨pr, hst, path, ps₂, h⟩)) ∧
    (∀ (pr hst path h : String) (ps : List (String × String)),
        path ≠ "" → jsEndsWith path "/" = false →
        normalizeUrl (some ⟨pr, hst, path ++ "/", ps, h⟩)
          = normalizeUrl (some ⟨pr, hst, path, ps, h⟩)) ∧
    normalizeUrl none = none := by
  refine ⟨fun pr hst path ps h₁ h₂ => rfl, fun pr hst path h ps₁ ps₂ hperm hnd => ?_,
    fun pr hst path h ps hpath hsl => ?_, rfl⟩
  · simp only [normalizeUrl]
    rw [sortedRebuild_perm_eq ps₁ ps₂ hperm hnd]
  · simp only [normalizeUrl]
    have htrim : trimTrailingSlash (path ++ "/") = trimTrailingSlash path := by
      have hne : path ++ "/" ≠ "/" := by
        intro he
        apply hpath
        have hd := congrArg String.data he
        rw [String.data_append] at hd
        have h1 := congrArg List.length hd
        rw [List.length_append] at h1
        have hlen0 : path.data.length = 0 := by omega
        exact String.ext (List.length_eq_zero.mp hlen0)
      have hds : jsEndsWith (path ++ "/") "/" = true := by
        unfold jsEndsWith
        rw [String.data_append]
        exact decide_eq_true (List.suffix_append path.data _)
      have hdrop : jsDropRight (path ++ "/") 1 = path := by
        unfold jsDropRight
        rw [String.data_append]
        have hlen : (path.data ++ "/".data).length - 1 = path.data.length := by
          simp
        rw [hlen, List.take_left]
      rw [trimTrailingSlash, if_pos ⟨hne, hds⟩, hdrop, trimTrailingSlash,
        if_neg (fun hc => by rw [hsl] at hc; exact Bool.false_ne_true hc.2)]
    rw [htrim]

/-- Witness for the amended C6: concrete instances of all three invariances
with the hypotheses discharged — distinct-key reordering, fragment removal,
and trailing-slash trimming agree. -/
theorem normalizeUrl_equivalences_witness :
    normalizeUrl (some ⟨"https:", "docs.onyxlang.io", "/book", [("b", "2"), ("a", "1")], "#frag"⟩)
      = normalizeUrl (some ⟨"https:", "docs.onyxlang.io", "/book", [("a", "1"), ("b", "2")], ""⟩)
      ∧ normalizeUrl (some ⟨"https:", "docs.onyxlang.io", "/book" ++ "/", [], ""⟩)
      = normalizeUrl (some ⟨"https:", "docs.onyxlang.io", "/book", [], ""⟩) := by
  constructor
  · exact ((normalizeUrl_equivalences.2.1 "https:" "docs.onyxlang.io" "/book" ""
      [("b", "2"), ("a", "1")] [("a", "1"), ("b", "2")] (by decide) (by decide)).trans
      (normalizeUrl_equivalences.1 "https:" "docs.onyxlang.io" "/book"
        [("a", "1"), ("b", "2")] "" "#frag").symm).symm.trans
      (normalizeUrl_equivalences.1 "https:" "docs.onyxlang.io" "/book"
        [("a", "1"), ("b", "2")] "#frag" "")
  · exact normalizeUrl_equivalences.2.2.1 "https:" "docs.onyxlang.io" "/book" ""
      [] (by decide) (by decide)

/-- C10: for a valid URL whose query contains a key more than once, the
normalized query contains that key exactly once (the rebuilt pair list has
duplicate-free keys), bound to the value of the key's first occurrence in
the input (`params.get`), and keys absent from the input stay absent. -/
theorem normalizeUrl_duplicate_keys_first_value (params : List (String × String)) (k : String) :
    ((sortedRebuild params).map Prod.fst).Nodup ∧
    (k ∈ params.map Prod.fst →
        jsGet (sortedRebuild params) k = some ((jsGet params k).getD "")) ∧
    (k ∉ params.map Prod.fst → k ∉ (sortedRebuild params).map Prod.fst) :=
  sortedRebuild_spec params k

/-- Witness for C10: with the duplicated key `a`, the rebuilt query binds
`a` once, to the first occurrence's value `1`. -/
theorem normalizeUrl_duplicate_keys_first_value_witness :
    jsGet (sortedRebuild [("a", "1"), ("a", "2")]) "a" = some "1" :=
  (normalizeUrl_duplicate_keys_first_value [("a", "1"), ("a", "2")] "a").2.1 (by decide)

/-- The circuit-breaker run: from any loop state about to dequeue
`maxConsecutiveErrors - consecutiveErrors` fresh, valid URLs that all fail
to fetch, `processQueue` marks exactly those URLs visited and fetched,
accumulates no document, leaves the rest of the frontier untouched, and
stops with the aborted flag. -/
theorem processQueue_failrun (oracle : String → Option PageData)
    (normalize : String → Option String) :
    ∀ (bad : List String) (rest : List String) (s : CrawlState) (fuel : Nat),
      s.linkQueue = bad ++ rest →
      s.consecutiveErrors + bad.length = maxConsecutiveErrors →
      0 < bad.length →
      (∀ u ∈ bad, normalize u = some u) →
      (∀ u ∈ bad, oracle u = none) →
      (∀ u ∈ bad, u ∉ s.visited) →
      bad.Nodup →
      bad.length ≤ fuel →
      s.processedCount < MAX_PAGES →
      processQueue oracle normalize fuel s
        = { s with
            linkQueue := rest
            visited := s.visited ++ bad
            fetchLog := s.fetchLog ++ bad
            consecutiveErrors := maxConsecutiveErrors
            aborted := true } := by
  intro bad
  induction bad with
  | nil =>
    intro rest s fuel _ _ h0 _ _ _ _ _ _
    exact absurd h0 (Nat.lt_irrefl 0)
  | cons u bad ih =>
    intro rest s fuel hq hcons _ hnorm horacle hvis hnd hfuel hproc
    cases fuel with
    | zero => exact absurd hfuel (by simp)
    | succ fuel =>
      have hu : u ∈ u :: bad := List.mem_cons_self u bad
      simp only [processQueue]
      rw [hq]
      simp only [List.cons_append]
      rw [if_neg (Nat.not_le.mpr hproc), hnorm u hu]
      simp only []
      rw [if_neg (hvis u hu), horacle u hu]
      simp only [List.length_cons] at hcons hfuel
      by_cases hbad : bad = []
      · subst hbad
        have h5 : maxConsecutiveErrors ≤ s.consecutiveErrors + 1 := by
          simp only [List.length_nil] at hcons
          omega
        rw [if_pos h5]
        have he : s.consecutiveErrors + 1 = maxConsecutiveErrors := by
          simp only [List.length_nil] at hcons
          omega
        simp [he]
      · have hlen : 0 < bad.length := List.length_pos.mpr hbad
        rw [if_neg (by omega)]
        have hrec := ih (rest) ({ s with
            linkQueue := bad ++ rest
            visited := s.visited ++ [u]
            fetchLog := s.fetchLog ++ [u]
            consecutiveErrors := s.consecutiveErrors + 1 }) fuel rfl
          (by simp only []; omega) hlen
          (fun v hv => hnorm v (List.mem_cons_of_mem u hv))
          (fun v hv => horacle v (List.mem_cons_of_mem u hv))
          (fun v hv => by
            simp only [List.mem_append, List.mem_singleton, not_or]
            refine ⟨hvis v (List.mem_cons_of_mem u hv), fun he => ?_⟩
            subst he
            exact (List.nodup_cons.mp hnd).1 hv)
          (List.nodup_cons.mp hnd).2
          (by omega) hproc
        rw [hrec]
        simp [List.append_assoc]

/-- C7: in any crawl run in which fetch failures occur on
`maxConsecutiveErrors = 5` consecutive dequeued URLs, the processing loop
halts early in the aborted state — the remaining frontier is not processed,
no document is collected past the halt — and the `saveDocs` step that
`crawl` then runs unconditionally still persists every previously
accumulated document and rewrites the Crawl Stats record. -/
theorem processQueue_circuit_breaker_persists (oracle : String → Option PageData)
    (normalize : String → Option String) (s : CrawlState) (bad rest : List String)
    (fuel : Nat) (baseUrls : List String) (now : Nat)
    (hq : s.linkQueue = bad ++ rest)
    (hlen : bad.length = maxConsecutiveErrors)
    (hcons : s.consecutiveErrors = 0)
    (hnorm : ∀ u ∈ bad, normalize u = some u)
    (horacle : ∀ u ∈ bad, oracle u = none)
    (hvis : ∀ u ∈ bad, u ∉ s.visited)
    (hnd : bad.Nodup)
    (hfuel : maxConsecutiveErrors ≤ fuel)
    (hproc : s.processedCount < MAX_PAGES) :
    (processQueue oracle normalize fuel s).aborted = true ∧
    (processQueue oracle normalize fuel s).linkQueue = rest ∧
    (processQueue oracle normalize fuel s).docs = s.docs ∧
    (processQueue oracle normalize fuel s).fetchLog = s.fetchLog ++ bad ∧
    (saveDocs baseUrls now (processQueue oracle normalize fuel s)).docsJson = s.docs ∧
    (saveDocs baseUrls now (processQueue oracle normalize fuel s)).statsJson.crawlDate
      = some now ∧
    (saveDocs baseUrls now (processQueue oracle normalize fuel s)).statsJson.totalDocs
      = s.docs.length := by
  have h := processQueue_failrun oracle normalize bad rest s fuel hq
    (by rw [hcons, hlen]; exact Nat.zero_add _) (by rw [hlen]; decide) hnorm horacle hvis hnd
    (hlen ▸ hfuel) hproc
  rw [h]
  exact ⟨rfl, rfl, rfl, rfl, rfl, rfl, rfl⟩

/-- Witness for C7: a concrete mid-crawl state with one collected document
and five doomed URLs — the loop aborts and the document is still written. -/
theorem processQueue_circuit_breaker_persists_witness :
    (processQueue failingOracle normalizeId 5 fiveBadState).aborted = true ∧
    (saveDocs [] 99 (processQueue failingOracle normalizeId 5 fiveBadState)).docsJson
      = [allocatorsDoc] :=
  ⟨(processQueue_circuit_breaker_persists failingOracle normalizeId fiveBadState
      fiveBad [] 5 [] 99 (by decide) (by decide) rfl (fun u _ => rfl) (fun u _ => rfl)
      (by decide) (by decide) (by decide) (by decide)).1,
   (processQueue_circuit_breaker_persists failingOracle normalizeId fiveBadState
      fiveBad [] 5 [] 99 (by decide) (by decide) rfl (fun u _ => rfl) (fun u _ => rfl)
      (by decide) (by decide) (by decide) (by decide)).2.2.2.2.1⟩

/-- C9: a crawl whose requested seed URLs were all crawled within the
freshness threshold according to the previous run's stats, without the
force flag, returns early: nothing is enqueued on the frontier, no page is
fetched, and no persisted corpus file (documents, index, stats) is written. -/
theorem crawl_skips_recent (oracle : String → Option PageData)
    (normalize : String → Option String) (fuel : Nat) (startUrls : List String)
    (stats : CrawlStats) (now date : Nat)
    (hdate : stats.crawlDate = some date)
    (hfresh : (now - date) / msPerDay < RECRAWL_THRESHOLD_DAYS)
    (hall : ∀ url ∈ startUrls, ∃ lastUrl ∈ stats.baseUrls, normalize lastUrl = normalize url) :
    crawl oracle normalize fuel startUrls false (some stats) now
      = { seeded := [], fetched := [], finalState := none, persisted := none } := by
  have hskip : checkRecentCrawls normalize (some stats) now startUrls = startUrls := by
    unfold checkRecentCrawls
    show (match stats.crawlDate with
      | none => []
      | some date =>
        if (now - date) / msPerDay < RECRAWL_THRESHOLD_DAYS then
          startUrls.filter (fun url =>
            stats.baseUrls.any (fun lastUrl => decide (normalize lastUrl = normalize url)))
        else []) = startUrls
    rw [hdate]
    show (if (now - date) / msPerDay < RECRAWL_THRESHOLD_DAYS then
        startUrls.filter (fun url =>
          stats.baseUrls.any (fun lastUrl => decide (normalize lastUrl = normalize url)))
      else []) = startUrls
    rw [if_pos hfresh]
    apply List.filter_eq_self.mpr
    intro url hurl
    rcases hall url hurl with ⟨lastUrl, hmem, heq⟩
    exact List.any_eq_true.mpr ⟨lastUrl, hmem, decide_eq_true heq⟩
  simp only [crawl]
  rw [hskip]
  by_cases hs : startUrls = []
  · subst hs
    simp
  · rw [if_pos (show startUrls ≠ [] ∧ True from ⟨hs, trivial⟩)]
    have hfilter : startUrls.filter (fun url => decide (url ∉ startUrls)) = [] := by
      apply List.filter_eq_nil_iff.mpr
      intro url hurl
      simp [hurl]
    rw [hfilter]
    simp

/-- Witness for C9: the fixture's single base URL requested again one day
later without force — the run is the empty early-return run. -/
theorem crawl_skips_recent_witness :
    crawl failingOracle normalizeId 10 ["https://docs.onyxlang.io/book/Overview.html"]
      false (some prevStatsFixture) msPerDay
      = { seeded := [], fetched := [], finalState := none, persisted := none } :=
  crawl_skips_recent failingOracle normalizeId 10
    ["https://docs.onyxlang.io/book/Overview.html"] prevStatsFixture msPerDay 0 rfl
    (by decide) (by decide)

end OnyxMcp
